import Mathlib

/-
  Verification development for the esbot voxel-world core (src/Map.py).

  The world index (`Map`), block search (`searchForBlock`) and path planner
  (`findPath`) of Map.py are shallowly embedded below.  Positions handed to the
  public interface are rational triples (Python passes floats / Points); block
  coordinates are integer triples; block-type identifiers are naturals.

  Wall-clock timeout checks (`time.time() - startTime > timeout`) are modelled
  by an oracle `tO : Nat -> Bool` telling, for each iteration of the main loop,
  whether the elapsed-time test fires at that iteration; loops additionally
  take a fuel parameter, `none` meaning the fuel ran out before the loop ended.

  Python floats computing Euclidean magnitudes are modelled exactly: a node's
  priority `sqrt s + p` is carried as the rational pair `(s, p)` and all
  comparisons between such values are decided exactly on rationals (`sqLE`).
-/

namespace Esbot

abbrev Block := Nat
abbrev Pos := Int × Int × Int
abbrev QV := ℚ × ℚ × ℚ

/-- Modelled from the spec: `Utility.ifloor` (Utility.py is not in src/) floors a
numeric coordinate to an integer; `flo` applies it componentwise as
`Point(*map(ifloor, p))` does. -/
def flo (v : QV) : Pos := (⌊v.1⌋, ⌊v.2.1⌋, ⌊v.2.2⌋)

/-- Componentwise addition of integer positions (Point + tuple in Map.py). -/
def padd (a b : Pos) : Pos := (a.1 + b.1, a.2.1 + b.2.1, a.2.2 + b.2.2)

/-- Componentwise subtraction of integer positions. -/
def psub (a b : Pos) : Pos := (a.1 - b.1, a.2.1 - b.2.1, a.2.2 - b.2.2)

/-- Exact rational addition, computed on numerators and denominators through
`mkRat` (definitionally computable; proved equal to `+` in `qadd_eq` below). -/
def qadd (a b : ℚ) : ℚ := mkRat (a.num * b.den + b.num * a.den) (a.den * b.den)

/-- Exact rational subtraction through `mkRat` (proved equal to `-` below). -/
def qsub (a b : ℚ) : ℚ := mkRat (a.num * b.den - b.num * a.den) (a.den * b.den)

/-- Exact rational multiplication through `mkRat` (proved equal to `*` below). -/
def qmul (a b : ℚ) : ℚ := mkRat (a.num * b.num) (a.den * b.den)

/-- Componentwise addition of rational triples. -/
def qadd3 (a b : QV) : QV := (qadd a.1 b.1, qadd a.2.1 b.2.1, qadd a.2.2 b.2.2)

/-- Squared Euclidean magnitude of an integer position. -/
def magSq (p : Pos) : Int := p.1 * p.1 + p.2.1 * p.2.1 + p.2.2 * p.2.2

/-- Modelled from the spec: `Point.mag` (Utility.py is not in src/) is the
Euclidean magnitude.  `magGtB p d` decides `p.mag() > d` exactly:
`sqrt (magSq p) > d` iff `d < 0` or `magSq p > d * d`. -/
def magGtB (p : Pos) (d : ℚ) : Bool :=
  decide (d < 0) || decide (qmul d d < ((magSq p : Int) : ℚ))

/-- Modelled from the spec: the air sentinel returned above the world ceiling
(constants.py is not in src/; the concrete identifier value is immaterial). -/
def BLOCK_AIR : Block := 0

/-- Modelled from the spec: the bedrock sentinel returned at or below the world
floor (constants.py is not in src/). -/
def BLOCK_BEDROCK : Block := 7

/-- Modelled from the spec: the fence-like block identifier (constants.py is
not in src/). -/
def BLOCK_FENCE : Block := 85

/-- Modelled from the spec: gravel, one of the unstable fall-hazard materials
(constants.py is not in src/). -/
def BLOCK_GRAVEL : Block := 13

/-- Modelled from the spec: sand, one of the unstable fall-hazard materials. -/
def BLOCK_SAND : Block := 12

/-- Modelled from the spec: water, one of the fall-hazard materials. -/
def BLOCK_WATER : Block := 8

/-- Modelled from the spec: water spring, one of the fall-hazard materials. -/
def BLOCK_SPRING : Block := 9

/-- Modelled from the spec: lava, one of the fall-hazard materials. -/
def BLOCK_LAVA : Block := 10

/-- Modelled from the spec: lava spring, one of the fall-hazard materials. -/
def BLOCK_LAVASPRING : Block := 11

/-- A chunk: world-aligned origin, extents, and one block identifier per local
cell.  Cells are modelled as a total function on local coordinates; Map.py only
reads a cell after the containment check of `findChunk` succeeded. -/
structure Chunk where
  pos : Pos
  sizeX : Int
  sizeY : Int
  sizeZ : Int
  data : Int → Int → Int → Block

/-- The world index: Python's `self.chunks` dict from chunk origin to Chunk,
modelled as an association list in insertion order. -/
structure Map where
  chunks : List (Pos × Chunk)

/-- Dict assignment `self.chunks[k] = c`: replace the entry with key `k` in
place, else append. -/
def putEntry (k : Pos) (c : Chunk) : List (Pos × Chunk) → List (Pos × Chunk)
  | [] => [(k, c)]
  | e :: rest => if e.1 = k then (k, c) :: rest else e :: putEntry k c rest

/-- Operation `Map.addChunk`: insert or replace the chunk at its origin key. -/
def Map.addChunk (m : Map) (c : Chunk) : Map := ⟨putEntry c.pos c m.chunks⟩

/-- The containment test of `Map.findChunk`:
`cx <= x < cx+sizeX and cy <= y < cy+sizeY and cz <= z < cz+sizeZ`, where
`(cx, cy, cz)` is the chunk's key in the dict. -/
def containsB (key : Pos) (c : Chunk) (p : Pos) : Bool :=
  decide (key.1 ≤ p.1 ∧ p.1 < key.1 + c.sizeX ∧
          key.2.1 ≤ p.2.1 ∧ p.2.1 < key.2.1 + c.sizeY ∧
          key.2.2 ≤ p.2.2 ∧ p.2.2 < key.2.2 + c.sizeZ)

/-- First entry satisfying a predicate, together with its index (models both
the dict key lookup and the `self.chunks.items()` scan of `findChunk`). -/
def lookupEntry {α : Type} (p : α → Bool) : List α → Option (Nat × α)
  | [] => none
  | e :: rest =>
    if p e then some (0, e)
    else (lookupEntry p rest).map (fun ie => (ie.1 + 1, ie.2))

/-- Operation `Map.findChunk`: fast path keyed on the 16-aligned origin
`(x - x%16, 0, z - z%16)` with containment verification, falling back to a
linear containment scan over all loaded chunks.  Returns the entry and its
index so that `set` can update it. -/
def Map.findChunk (m : Map) (p : Pos) : Option (Nat × (Pos × Chunk)) :=
  match lookupEntry (fun e => e.1 == ((p.1 - p.1 % 16, 0, p.2.2 - p.2.2 % 16) : Pos)) m.chunks with
  | some ie =>
    if containsB ie.2.1 ie.2.2 p then some ie
    else lookupEntry (fun e => containsB e.1 e.2 p) m.chunks
  | none => lookupEntry (fun e => containsB e.1 e.2 p) m.chunks

/-- Operation `Map.__getitem__` after flooring: world-boundary sentinels for y at or
above 128 / at or below 0, else chunk resolution; `none` models the raised
`BlockNotLoadedError`. -/
def Map.getP (m : Map) (p : Pos) : Option Block :=
  if 128 ≤ p.2.1 then some BLOCK_AIR
  else if p.2.1 ≤ 0 then some BLOCK_BEDROCK
  else
    match m.findChunk p with
    | some ie =>
      some (ie.2.2.data (p.1 - ie.2.2.pos.1) (p.2.1 - ie.2.2.pos.2.1)
              (p.2.2 - ie.2.2.pos.2.2))
    | none => none

/-- Operation `Map.__getitem__`: floor the key's components, then resolve. -/
def Map.getItem (m : Map) (key : QV) : Option Block := m.getP (flo key)

/-- Operation `Map.__setitem__`: floor the key, resolve the chunk, mutate its cell at the
local coordinates (position minus chunk origin); `none` models the raised
`BlockNotLoadedError`. -/
def Map.setItem (m : Map) (key : QV) (v : Block) : Option Map :=
  match m.findChunk (flo key) with
  | some ie =>
    some ⟨m.chunks.set ie.1
      (ie.2.1,
        { ie.2.2 with data := fun a b c =>
            if a = (flo key).1 - ie.2.2.pos.1 ∧ b = (flo key).2.1 - ie.2.2.pos.2.1 ∧
               c = (flo key).2.2 - ie.2.2.pos.2.2 then v
            else ie.2.2.data a b c })⟩
  | none => none

/-! ## Block search (`Map.searchForBlock`) -/

/-- The 6-connected neighbor offsets, in the order produced by
`zip(self.adjX, self.adjY, self.adjZ)` with `adjX = [0,-1,0,1,0,0]`,
`adjY = [0,0,-1,0,1,0]`, `adjZ = [-1,0,0,0,0,1]`. -/
def adjList : List Pos := [(0, 0, -1), (-1, 0, 0), (0, -1, 0), (1, 0, 0), (0, 1, 0), (0, 0, 1)]

/-- Outcome of `searchForBlock`: a found position, the `None` return when the
frontier empties, or the raised `TimeoutError`. -/
inductive SearchOut where
  | found (p : Pos)
  | notFound
  | timeoutErr
deriving DecidableEq

/-- The inner `for adj in zip(...)` loop of `searchForBlock`: for each
neighbor, skip if beyond `maxDist` (`npos.mag() > maxDist`), skip if visited,
skip (swallowing `BlockNotLoadedError`) if unloaded, return the position if its
block equals the target, else enqueue and mark visited. -/
def expandSearch (m : Map) (target : Block) (maxDist : Option ℚ) (pos : Pos) :
    List Pos → List Pos → List Pos → Sum Pos (List Pos × List Pos)
  | [], visited, q => .inr (visited, q)
  | adj :: rest, visited, q =>
    let npos := padd pos adj
    if (match maxDist with | some d => magGtB npos d | none => false) then
      expandSearch m target maxDist pos rest visited q
    else if npos ∈ visited then
      expandSearch m target maxDist pos rest visited q
    else
      match m.getP npos with
      | none => expandSearch m target maxDist pos rest visited q
      | some b =>
        if b = target then .inl npos
        else expandSearch m target maxDist pos rest (visited ++ [npos]) (q ++ [npos])

/-- The `while q:` loop of `searchForBlock`: pop the oldest frontier entry,
fail with `TimeoutError` if the elapsed-time test fires for this iteration
(oracle `tO` at the pop counter `k`), else process the 6 neighbors. -/
def searchLoop (m : Map) (target : Block) (tO : Nat → Bool) (maxDist : Option ℚ) :
    Nat → Nat → List Pos → List Pos → Option SearchOut
  | 0, _, _, _ => none
  | _ + 1, _, _, [] => some .notFound
  | fuel + 1, k, visited, pos :: rest =>
    if tO k then some .timeoutErr
    else
      match expandSearch m target maxDist pos adjList visited rest with
      | .inl p => some (.found p)
      | .inr vq => searchLoop m target tO maxDist fuel (k + 1) vq.1 vq.2

/-- Operation `Map.searchForBlock`: breadth-first search from the floored source with the
visited set and FIFO frontier both seeded with the source. -/
def searchForBlock (m : Map) (source : QV) (target : Block) (tO : Nat → Bool)
    (maxDist : Option ℚ) (fuel : Nat) : Option SearchOut :=
  searchLoop m target tO maxDist fuel 0 [flo source] [flo source]

/-! ## Path planner (`Map.findPath`)

An `AStarNode`'s priority `self.dist` is the real number `sqrt distS + distP`
(Euclidean distance from the raw `end` argument plus the destructive-mode
penalty), carried exactly as the rational pair `(distS, distP)`.  `sqLE`
decides `sqrt a + p <= sqrt b + q` exactly for nonnegative `a`, `b`; all of
`AStarNode.__cmp__`'s uses (heap `<` comparisons, the `!=` of the
reconstruction loop, the threshold test) are expressed through it. -/

/-- Decides `sqrt a + p <= sqrt b + q` for `a, b >= 0` by case analysis on the
sign of `d := q - p` and squaring: for `d >= 0` it holds iff
`a - b - d^2 <= 0` or `(a - b - d^2)^2 <= 4 d^2 b`; for `d < 0` it holds iff
`b - a - d^2 >= 0` and `4 d^2 a <= (b - a - d^2)^2`. -/
def sqLE (a p b q : ℚ) : Bool :=
  if (0 : ℚ) ≤ qsub q p then
    if qsub (qsub a b) (qmul (qsub q p) (qsub q p)) ≤ 0 then true
    else decide (qmul (qsub (qsub a b) (qmul (qsub q p) (qsub q p)))
                      (qsub (qsub a b) (qmul (qsub q p) (qsub q p)))
                 ≤ qmul (qmul 4 (qmul (qsub q p) (qsub q p))) b)
  else
    if qsub (qsub b a) (qmul (qsub q p) (qsub q p)) < 0 then false
    else decide (qmul (qmul 4 (qmul (qsub q p) (qsub q p))) a
                 ≤ qmul (qsub (qsub b a) (qmul (qsub q p) (qsub q p)))
                        (qsub (qsub b a) (qmul (qsub q p) (qsub q p))))

/-- A search node of `findPath` (`AStarNode`): position, the two components of
its priority, the resolved block (`None` when the chunk is unloaded) and the
availability flag. -/
structure ANode where
  pos : Pos
  distS : ℚ
  distP : ℚ
  blockId : Option Block
  available : Bool
deriving DecidableEq, Inhabited

/-- Node comparison `a < b`: `cmp(self.dist, other.dist) < 0`, i.e.
`not (b.dist <= a.dist)` on the exact real priorities. -/
def nodeLT (a b : ANode) : Bool := !(sqLE b.distS b.distP a.distS a.distP)

/-- Python 2's `a != b` with only `__cmp__` defined compares via
`cmp(a, b) != 0`, i.e. it is priority equality, not object identity;
`nodeEqD a b` decides `a.dist == b.dist`. -/
def nodeEqD (a b : ANode) : Bool :=
  sqLE a.distS a.distP b.distS b.distP && sqLE b.distS b.distP a.distS a.distP

/-- Safe list indexing used by the binary-heap model. -/
def hGet (l : List ANode) (i : Nat) : ANode := (l.get? i).getD default

/-- CPython's `heapq._siftdown(heap, startpos, pos)` with `newitem` the element
initially at `pos`: move parents down while `newitem` is smaller, then place
`newitem`.  The structural fuel bounds the iteration count (`pos` strictly
decreases each round, so `pos + 1` rounds always suffice); the fuel-exhausted
fallback coincides with the loop's exit action and is never reached from
`siftdown`. -/
def siftdownF : Nat → List ANode → ANode → Nat → Nat → List ANode
  | 0, heap, newitem, _, pos => heap.set pos newitem
  | fuel + 1, heap, newitem, startpos, pos =>
    if startpos < pos then
      if nodeLT newitem (hGet heap ((pos - 1) / 2)) then
        siftdownF fuel (heap.set pos (hGet heap ((pos - 1) / 2))) newitem startpos ((pos - 1) / 2)
      else heap.set pos newitem
    else heap.set pos newitem

/-- Python's `heapq._siftdown` entered with enough fuel for its whole descent. -/
def siftdown (heap : List ANode) (newitem : ANode) (startpos pos : Nat) : List ANode :=
  siftdownF (pos + 1) heap newitem startpos pos

/-- CPython's `heapq._siftup(heap, pos)` (the end position is fixed at entry,
as in the source): bubble the smaller child up, then sift the moved item down.
`pos` strictly increases towards `endpos`, so `endpos + 1` rounds of fuel
always suffice; the fuel-exhausted fallback coincides with the loop's exit
action and is never reached from `hpopRest`. -/
def siftupF : Nat → Nat → List ANode → ANode → Nat → Nat → List ANode
  | 0, _, heap, newitem, startpos, pos => siftdown (heap.set pos newitem) newitem startpos pos
  | fuel + 1, endpos, heap, newitem, startpos, pos =>
    if 2 * pos + 1 < endpos then
      if 2 * pos + 2 < endpos && !(nodeLT (hGet heap (2 * pos + 1)) (hGet heap (2 * pos + 2))) then
        siftupF fuel endpos (heap.set pos (hGet heap (2 * pos + 2))) newitem startpos (2 * pos + 2)
      else
        siftupF fuel endpos (heap.set pos (hGet heap (2 * pos + 1))) newitem startpos (2 * pos + 1)
    else siftdown (heap.set pos newitem) newitem startpos pos

/-- Python's `heapq.heappush`: append, then sift down from the root boundary. -/
def hpush (l : List ANode) (item : ANode) : List ANode :=
  siftdown (l ++ [item]) item 0 l.length

/-- The item `heapq.heappop` returns: the root (the popped list is nonempty at
every call site, guarded by `while pq`). -/
def hpopItem (l : List ANode) : ANode := hGet l 0

/-- The heap left behind by `heapq.heappop`: remove the last element, move it
to the root and sift up. -/
def hpopRest (l : List ANode) : List ANode :=
  if l.length ≤ 1 then l.take (l.length - 1)
  else
    siftupF ((l.length - 1) + 1) (l.length - 1)
      ((l.take (l.length - 1)).set 0 (hGet l (l.length - 1)))
      (hGet l (l.length - 1)) 0 0

/-- Modelled from the spec: the optional agent profile (`forClient`) carries
the tick length and movement speed used to estimate mining cost. -/
structure Client where
  targetTick : ℚ
  speed : ℚ
deriving DecidableEq

/-- The parameters of one `findPath` invocation that the inner loop closes
over (the block classification table is passed in as predicates, mirroring the
globals `BLOCKS_WALKABLE` and `BLOCKS_BREAKABLE` of constants.py). -/
structure FPCtx where
  Wb : Block → Bool
  Bb : Block → Bool
  m : Map
  endq : QV
  endPos : Pos
  acceptIncomplete : Bool
  threshold : Option ℚ
  destructive : Bool
  bbp : Option ℚ
  cli : Option Client

/-- The source's `walkableBlocks`: the traversal set, `BLOCKS_WALKABLE` plus
`BLOCKS_BREAKABLE` when destructive. -/
def wsetOf (Wb Bb : Block → Bool) (destr : Bool) : Block → Bool :=
  fun b => Wb b || (destr && Bb b)

/-- Squared Euclidean distance `(end - pos).mag() ** 2` from the raw `end`
argument to an integer position. -/
def distSqQ (e : QV) (p : Pos) : ℚ :=
  qadd (qadd (qmul (qsub e.1 ((p.1 : Int) : ℚ)) (qsub e.1 ((p.1 : Int) : ℚ)))
             (qmul (qsub e.2.1 ((p.2.1 : Int) : ℚ)) (qsub e.2.1 ((p.2.1 : Int) : ℚ))))
       (qmul (qsub e.2.2 ((p.2.2 : Int) : ℚ)) (qsub e.2.2 ((p.2.2 : Int) : ℚ)))

/-- Constructor `AStarNode.__init__`: resolve the block (swallowing `BlockNotLoadedError`
into `available = False`), set `dist` to the Euclidean distance to `end`, and
in destructive mode add the break penalty — the fixed `blockBreakPenalty` if
given, else the `forClient` mining estimate `speed * (targetTick * 3)`, else
nothing. -/
def mkANode (ctx : FPCtx) (pos : Pos) : ANode :=
  { pos := pos
    distS := distSqQ ctx.endq pos
    distP :=
      if ctx.destructive &&
          (match ctx.m.getP pos with | some b => ctx.Bb b | none => false) then
        match ctx.bbp with
        | some bp => bp
        | none =>
          match ctx.cli with
          | some c => qmul c.speed (qmul c.targetTick 3)
          | none => 0
      else 0
    blockId := ctx.m.getP pos
    available := (ctx.m.getP pos).isSome }

/-- The hazardous-fall materials of the destructive guard, in source order. -/
def hazardList : List Block :=
  [BLOCK_GRAVEL, BLOCK_SAND, BLOCK_WATER, BLOCK_SPRING, BLOCK_LAVA, BLOCK_LAVASPRING]

/-- The expansion filter of `findPath`'s inner `for adj in zip(...)` loop: a
candidate is pushed iff it is not visited, is available or `acceptIncomplete`
is set, its block (when available) is in the traversal set, the block above is
in the traversal set unless unloaded, the block below is not the fence unless
unloaded, and in destructive mode the block two above is not a fall hazard
unless unloaded. -/
def expandOk (ctx : FPCtx) (vis : List Pos) (n : ANode) : Bool :=
  !(decide (n.pos ∈ vis)) &&
  !(!n.available && !ctx.acceptIncomplete) &&
  !(n.available &&
      (match n.blockId with
        | some b => !(wsetOf ctx.Wb ctx.Bb ctx.destructive b)
        | none => true)) &&
  (match ctx.m.getP (padd n.pos (0, 1, 0)) with
    | some b => wsetOf ctx.Wb ctx.Bb ctx.destructive b
    | none => true) &&
  (match ctx.m.getP (padd n.pos (0, -1, 0)) with
    | some b => !(b == BLOCK_FENCE)
    | none => true) &&
  (if ctx.destructive then
    match ctx.m.getP (padd n.pos (0, 2, 0)) with
    | some b => !(hazardList.contains b)
    | none => true
  else true)

/-- The neighbor-expansion fold: for each of the 6 neighbors build the node
and, when `expandOk` accepts it, record its parent, mark it visited and push
it onto the heap. -/
def fpExpand (ctx : FPCtx) (node : ANode) :
    List Pos → List ANode → List Pos → List (Pos × ANode) →
    List ANode × List Pos × List (Pos × ANode)
  | [], pq, vis, bt => (pq, vis, bt)
  | adj :: rest, pq, vis, bt =>
    match mkANode ctx (padd node.pos adj) with
    | nn =>
      if expandOk ctx vis nn then
        fpExpand ctx node rest (hpush pq nn) (vis ++ [nn.pos]) ((nn.pos, node) :: bt)
      else fpExpand ctx node rest pq vis bt

/-- The termination test on a popped node: at the goal position, or
unavailable under `acceptIncomplete`, or heuristic distance within the
threshold. -/
def fpTerm (ctx : FPCtx) (node : ANode) : Bool :=
  node.pos == ctx.endPos ||
  (!node.available && ctx.acceptIncomplete) ||
  (match ctx.threshold with
    | some t => sqLE node.distS node.distP 0 t
    | none => false)

/-- A block-center waypoint: `pos + (0.5, 0, 0.5)`. -/
def center (p : Pos) : QV :=
  (qadd ((p.1 : Int) : ℚ) (mkRat 1 2), ((p.2.1 : Int) : ℚ),
   qadd ((p.2.2 : Int) : ℚ) (mkRat 1 2))

/-- Backtrack lookup `backTrack[pos]`. -/
def lookupBT (bt : List (Pos × ANode)) (p : Pos) : Option ANode :=
  (bt.find? (fun e => e.1 == p)).map (fun e => e.2)

/-- The reconstruction loop: `while cur != startNode` (priority inequality via
`__cmp__`, see `nodeEqD`) prepend the waypoint and follow the parent pointer;
on exit append the current node's waypoint too.  `none` models fuel running
out or a `KeyError` on a missing backtrack entry (neither occurs in a run of
`findPath`). -/
def reconstruct (startN : ANode) (bt : List (Pos × ANode)) :
    Nat → ANode → List QV → Option (List QV)
  | 0, _, _ => none
  | fuel + 1, cur, acc =>
    if nodeEqD cur startN then some (center cur.pos :: acc)
    else
      match lookupBT bt cur.pos with
      | some par => reconstruct startN bt fuel par (center cur.pos :: acc)
      | none => none

/-- Outcome of `findPath`: a returned path (`avail = some b` exactly when
`acceptIncomplete` made the call return the pair `(path, available)`), the
`None` return when the frontier empties, the propagated
`BlockNotLoadedError`, an `AssertionError` from the preconditions, or the
raised `TimeoutError`. -/
inductive FPOut where
  | ret (path : List QV) (avail : Option Bool)
  | noPath (avail : Option Bool)
  | errNotLoaded
  | errAssert
  | errTimeout
deriving DecidableEq

/-- The `while pq and found is None` loop of `findPath`: stop with `noPath`
when the heap empties, fail with `TimeoutError` when the elapsed-time test
fires, pop the best node, terminate and reconstruct when `fpTerm` holds, else
expand the 6 neighbors and continue. -/
def fpLoop (ctx : FPCtx) (startN : ANode) (tO : Nat → Bool) :
    Nat → Nat → List ANode → List Pos → List (Pos × ANode) → Option FPOut
  | 0, _, _, _, _ => none
  | fuel + 1, k, pq, vis, bt =>
    if pq.length = 0 then
      some (if ctx.acceptIncomplete then .noPath (some false) else .noPath none)
    else if tO k then some .errTimeout
    else
      match hpopItem pq, hpopRest pq with
      | node, pq1 =>
        if fpTerm ctx node then
          match reconstruct startN bt (bt.length + 1) node [] with
          | some path =>
            some (.ret path (if ctx.acceptIncomplete then some node.available else none))
          | none => none
        else
          match fpExpand ctx node adjList pq1 vis bt with
          | (pq2, vis2, bt2) => fpLoop ctx startN tO fuel (k + 1) pq2 vis2 bt2

/-- The body of `findPath` after the precondition checks: build the start
node, seed the visited set and the heap with it, and run the loop. -/
def findPathMain (Wb Bb : Block → Bool) (m : Map) (start endq : QV)
    (aI : Bool) (th : Option ℚ) (destr : Bool) (bbp : Option ℚ)
    (cli : Option Client) (tO : Nat → Bool) (fuel : Nat) : Option FPOut :=
  match ({ Wb := Wb, Bb := Bb, m := m, endq := endq, endPos := flo endq,
           acceptIncomplete := aI, threshold := th, destructive := destr,
           bbp := bbp, cli := cli } : FPCtx) with
  | ctx =>
    fpLoop ctx (mkANode ctx (flo start)) tO fuel 0
      (hpush [] (mkANode ctx (flo start))) [flo start] []

/-- The start-precondition `assert self[start] in BLOCKS_WALKABLE`: an
unloaded start propagates `BlockNotLoadedError`; a loaded non-walkable start
raises `AssertionError`; note the plain walkable set, not the destructive
traversal set. -/
def findPathStart (Wb Bb : Block → Bool) (m : Map) (start endq : QV)
    (aI : Bool) (th : Option ℚ) (destr : Bool) (bbp : Option ℚ)
    (cli : Option Client) (tO : Nat → Bool) (fuel : Nat) : Option FPOut :=
  match m.getItem start with
  | none => some .errNotLoaded
  | some sb =>
    if !(Wb sb) then some .errAssert
    else findPathMain Wb Bb m start endq aI th destr bbp cli tO fuel

/-- Operation `Map.findPath`.  The end-precondition
`assert self[end] in walkableBlocks and self[end + (0,1,0)] in walkableBlocks`
evaluates left to right inside a `try` that catches only
`BlockNotLoadedError` (re-raised unless `acceptIncomplete`); a failed
membership raises `AssertionError`, uncaught.  Then the start precondition
runs, then the loop. -/
def findPath (Wb Bb : Block → Bool) (m : Map) (start endq : QV)
    (aI : Bool) (th : Option ℚ) (destr : Bool) (bbp : Option ℚ)
    (cli : Option Client) (tO : Nat → Bool) (fuel : Nat) : Option FPOut :=
  match m.getItem endq with
  | some b1 =>
    if !(wsetOf Wb Bb destr b1) then some .errAssert
    else
      match m.getItem (qadd3 endq (0, 1, 0)) with
      | some b2 =>
        if !(wsetOf Wb Bb destr b2) then some .errAssert
        else findPathStart Wb Bb m start endq aI th destr bbp cli tO fuel
      | none =>
        if aI then findPathStart Wb Bb m start endq aI th destr bbp cli tO fuel
        else some .errNotLoaded
  | none =>
    if aI then findPathStart Wb Bb m start endq aI th destr bbp cli tO fuel
    else some .errNotLoaded

/-! ## Claim-side characterizations

The following definitions follow the spec's words (not the source); the
theorems below compare the embedded source against them. -/

/-- Follows the spec's words for the per-node expansion rules: candidate block
in the traversal set when loaded, headroom above in the traversal set when
loaded, no fence directly below when loaded, and in destructive mode no
fall-hazard material two above when loaded — each check permitting the
candidate when the respective chunk is unloaded. -/
def specExpandConds (w : Block → Bool) (destr : Bool) (m : Map) (p : Pos) : Bool :=
  (match m.getP p with | some b => w b | none => true) &&
  (match m.getP (padd p (0, 1, 0)) with | some b => w b | none => true) &&
  (match m.getP (padd p (0, -1, 0)) with | some b => !(b == BLOCK_FENCE) | none => true) &&
  (if destr then
    match m.getP (padd p (0, 2, 0)) with | some b => !(hazardList.contains b) | none => true
  else true)

/-- The end precondition neither fails its assert nor propagates
`BlockNotLoadedError`: the end block and the block above it are in the
traversal set when loaded, with an unloaded lookup tolerated only under
`acceptIncomplete`. -/
def endCheckPasses (m : Map) (endq : QV) (w : Block → Bool) (aI : Bool) : Bool :=
  match m.getItem endq with
  | some b =>
    w b && (match m.getItem (qadd3 endq (0, 1, 0)) with | some b2 => w b2 | none => aI)
  | none => aI

/-- The end precondition fails its `assert`: the end block is loaded and
either it is outside the traversal set, or it is inside and the block above is
loaded and outside. -/
def endAssertViolation (m : Map) (endq : QV) (w : Block → Bool) : Bool :=
  match m.getItem endq with
  | some b =>
    !(w b) ||
    (match m.getItem (qadd3 endq (0, 1, 0)) with | some b2 => !(w b2) | none => false)
  | none => false

/-- The end precondition re-raises `BlockNotLoadedError`: `acceptIncomplete`
is unset and either the end block is unloaded, or it is loaded, traversable,
and the block above is unloaded. -/
def endNotLoadedFail (m : Map) (endq : QV) (w : Block → Bool) (aI : Bool) : Bool :=
  !aI &&
  (match m.getItem endq with
    | some b =>
      w b && (match m.getItem (qadd3 endq (0, 1, 0)) with | some _ => false | none => true)
    | none => true)

/-- The start precondition fails its `assert`: the start block is loaded and
not plainly walkable. -/
def startAssertViolation (Wb : Block → Bool) (m : Map) (start : QV) : Bool :=
  match m.getItem start with
  | some sb => !(Wb sb)
  | none => false

/-! ## Concrete worlds used by the counterexamples and witnesses -/

/-- A 32x128x32 chunk at origin (-16, 0, -16), uniformly block 1 except block
57 at world position (-2, 1, 0) (local (14, 1, 16)). -/
def chunkC1 : Chunk :=
  ⟨(-16, 0, -16), 32, 128, 32, fun a b c => if a = 14 ∧ b = 1 ∧ c = 16 then 57 else 1⟩

/-- World for the `maxDist` counterexample: one chunk, target block 57 at
(-2, 1, 0), searched from (2, 1, 0). -/
def mapC1 : Map := ⟨[((-16, 0, -16), chunkC1)]⟩

/-- A 16x128x16 chunk at the origin, uniformly block 1 except block 57 at
(2, 1, 1). -/
def chunkC2 : Chunk :=
  ⟨(0, 0, 0), 16, 128, 16, fun a b c => if a = 2 ∧ b = 1 ∧ c = 1 then 57 else 1⟩

/-- World for the source-block counterexample: the only block equal to the
target sits exactly at the search source (2, 1, 1). -/
def mapC2 : Map := ⟨[((0, 0, 0), chunkC2)]⟩

/-- The (x, z) cells of the walkable corridor at height y = 1 of `mapC3`,
leading from (0, 0) around to (2, 0). -/
def corridorC3 : List (Int × Int) := [(0,0), (0,1), (0,2), (1,2), (2,2), (2,1), (2,0)]

/-- A chunk whose y = 2 layer is walkable (block 2, giving headroom), whose
y = 1 layer is walkable only along `corridorC3`, and which is block 99
elsewhere. -/
def chunkC3 : Chunk :=
  ⟨(0, 0, 0), 16, 128, 16, fun a b c =>
    if b = 2 then 2 else if b = 1 ∧ (a, c) ∈ corridorC3 then 2 else 99⟩

/-- World for the reconstruction counterexample: the corridor forces the path
from (0,1,0) to (2,1,0) through (2,1,2), which is equidistant (distance 2)
from the goal with the start. -/
def mapC3 : Map := ⟨[((0, 0, 0), chunkC3)]⟩

/-- Walkable table for the C3/C9 worlds: exactly block 2. -/
def Wb3 : Block → Bool := fun b => b == 2

/-- Breakable table for the C3/C9 worlds: empty. -/
def Bb3 : Block → Bool := fun _ => false

/-- A chunk with walkable (2) start at (0,1,0), breakable-but-not-walkable (3)
end at (1,1,0), a walkable y = 2 layer, and 99 elsewhere. -/
def chunkC4 : Chunk :=
  ⟨(0, 0, 0), 16, 128, 16, fun a b c =>
    if b = 2 then 2
    else if b = 1 ∧ a = 0 ∧ c = 0 then 2
    else if b = 1 ∧ a = 1 ∧ c = 0 then 3 else 99⟩

/-- World for the precondition counterexample. -/
def mapC4 : Map := ⟨[((0, 0, 0), chunkC4)]⟩

/-- Walkable table for the C4 world: exactly block 2. -/
def Wb4 : Block → Bool := fun b => b == 2

/-- Breakable table for the C4 world: exactly block 3. -/
def Bb4 : Block → Bool := fun b => b == 3

/-- A uniformly walkable 16x128x16 chunk at the origin (the spec's testable
property 2). -/
def chunkW : Chunk := ⟨(0, 0, 0), 16, 128, 16, fun _ _ _ => 1⟩

/-- World with the single chunk `chunkW`. -/
def mapW : Map := ⟨[((0, 0, 0), chunkW)]⟩

/-! ## Correctness of the computable rational operations -/

theorem qadd_eq (a b : ℚ) : qadd a b = a + b := by
  have ha : ((a.den : ℚ)) ≠ 0 := Nat.cast_ne_zero.mpr a.den_nz
  have hb : ((b.den : ℚ)) ≠ 0 := Nat.cast_ne_zero.mpr b.den_nz
  rw [qadd, Rat.mkRat_eq_div]
  conv_rhs => rw [← Rat.num_div_den a, ← Rat.num_div_den b]
  rw [div_add_div _ _ ha hb]
  push_cast
  ring_nf

theorem qsub_eq (a b : ℚ) : qsub a b = a - b := by
  have ha : ((a.den : ℚ)) ≠ 0 := Nat.cast_ne_zero.mpr a.den_nz
  have hb : ((b.den : ℚ)) ≠ 0 := Nat.cast_ne_zero.mpr b.den_nz
  rw [qsub, Rat.mkRat_eq_div]
  conv_rhs => rw [← Rat.num_div_den a, ← Rat.num_div_den b]
  rw [div_sub_div _ _ ha hb]
  push_cast
  ring_nf

theorem qmul_eq (a b : ℚ) : qmul a b = a * b := by
  have ha : ((a.den : ℚ)) ≠ 0 := Nat.cast_ne_zero.mpr a.den_nz
  have hb : ((b.den : ℚ)) ≠ 0 := Nat.cast_ne_zero.mpr b.den_nz
  rw [qmul, Rat.mkRat_eq_div]
  conv_rhs => rw [← Rat.num_div_den a, ← Rat.num_div_den b]
  rw [div_mul_div_comm]
  push_cast
  ring_nf

/-! ## World Index claims -/

/-- C5.  For every key position and every state of the chunk mapping, `get`
returns the air sentinel whenever the floored y coordinate is at or above 128,
and the bedrock sentinel whenever it is at or below 0, without consulting any
chunk (the theorem quantifies over every `Map`). -/
theorem claim_C5 (m : Map) (x y z : ℚ) :
    (128 ≤ ⌊y⌋ → m.getItem (x, y, z) = some BLOCK_AIR) ∧
    (⌊y⌋ ≤ 0 → m.getItem (x, y, z) = some BLOCK_BEDROCK) := by
  constructor
  · intro h
    simp only [Map.getItem, Map.getP, flo]
    rw [if_pos h]
  · intro h
    simp only [Map.getItem, Map.getP, flo]
    rw [if_neg (by omega), if_pos h]

/-- Witness for C5 at concrete inputs, on the empty chunk mapping. -/
theorem claim_C5_witness :
    (Map.mk []).getItem (0, 130, 0) = some BLOCK_AIR ∧
    (Map.mk []).getItem (0, -5, 0) = some BLOCK_BEDROCK :=
  ⟨(claim_C5 (Map.mk []) 0 130 0).1 (by decide),
   (claim_C5 (Map.mk []) 0 (-5) 0).2 (by decide)⟩

theorem lookupEntry_eq_none {α : Type} (p : α → Bool) (l : List α) :
    lookupEntry p l = none ↔ ∀ a ∈ l, p a = false := by
  induction l with
  | nil => simp [lookupEntry]
  | cons e rest ih =>
    by_cases he : p e
    · simp [lookupEntry, he]
    · have he2 : p e = false := by revert he; cases p e <;> simp
      rw [lookupEntry, if_neg he]
      rw [Option.map_eq_none', ih]
      constructor
      · intro h a ha
        rcases List.mem_cons.mp ha with rfl | ha2
        · exact he2
        · exact h a ha2
      · intro h a ha
        exact h a (List.mem_cons_of_mem e ha)

theorem lookupEntry_mem {α : Type} (p : α → Bool) (l : List α) (ie : Nat × α) :
    lookupEntry p l = some ie → ie.2 ∈ l ∧ p ie.2 = true := by
  induction l generalizing ie with
  | nil => intro h; exact absurd h (by simp [lookupEntry])
  | cons e rest ih =>
    intro h
    by_cases he : p e
    · rw [lookupEntry, if_pos he] at h
      obtain rfl := (Option.some.inj h).symm
      exact ⟨List.mem_cons_self e rest, he⟩
    · rw [lookupEntry, if_neg he] at h
      cases hr : lookupEntry p rest with
      | none => rw [hr] at h; exact absurd h (by simp)
      | some je =>
        rw [hr] at h
        simp only [Option.map_some'] at h
        obtain rfl := (Option.some.inj h).symm
        obtain ⟨hm, hp⟩ := ih je hr
        exact ⟨List.mem_cons_of_mem e hm, hp⟩

theorem findChunk_eq_none (m : Map) (p : Pos) :
    m.findChunk p = none ↔ ∀ e ∈ m.chunks, containsB e.1 e.2 p = false := by
  unfold Map.findChunk
  cases hfast : lookupEntry
      (fun e => e.1 == ((p.1 - p.1 % 16, 0, p.2.2 - p.2.2 % 16) : Pos)) m.chunks with
  | none =>
    exact lookupEntry_eq_none _ _
  | some ie =>
    dsimp only
    by_cases hc : containsB ie.2.1 ie.2.2 p
    · rw [if_pos hc]
      constructor
      · intro h; exact absurd h (by simp)
      · intro h
        obtain ⟨hm, _⟩ := lookupEntry_mem _ _ ie hfast
        exact absurd (h ie.2 hm) (by simp [hc])
    · rw [if_neg hc]
      exact lookupEntry_eq_none _ _

theorem findChunk_mem (m : Map) (p : Pos) (ie : Nat × (Pos × Chunk)) :
    m.findChunk p = some ie → ie.2 ∈ m.chunks ∧ containsB ie.2.1 ie.2.2 p = true := by
  unfold Map.findChunk
  cases hfast : lookupEntry
      (fun e => e.1 == ((p.1 - p.1 % 16, 0, p.2.2 - p.2.2 % 16) : Pos)) m.chunks with
  | none =>
    intro h
    exact lookupEntry_mem _ _ ie h
  | some je =>
    dsimp only
    by_cases hc : containsB je.2.1 je.2.2 p
    · rw [if_pos hc]
      intro h
      have h2 : je = ie := Option.some.inj h
      subst h2
      obtain ⟨hm, _⟩ := lookupEntry_mem _ _ je hfast
      exact ⟨hm, hc⟩
    · rw [if_neg hc]
      intro h
      exact lookupEntry_mem _ _ ie h

/-- C6.  For a key whose floored y coordinate lies strictly between 0 and 128,
`get` fails (with `ChunkNotLoaded`, modelled as `none`) iff no loaded chunk's
extents contain the floored position; when it succeeds, the value is a
containing chunk's cell at the position translated by that chunk's origin. -/
theorem claim_C6 (m : Map) (x y z : ℚ) (h1 : 0 < ⌊y⌋) (h2 : ⌊y⌋ < 128) :
    (m.getItem (x, y, z) = none ↔
      ∀ e ∈ m.chunks, containsB e.1 e.2 (flo (x, y, z)) = false) ∧
    (∀ v, m.getItem (x, y, z) = some v →
      ∃ e ∈ m.chunks, containsB e.1 e.2 (flo (x, y, z)) = true ∧
        v = e.2.data ((flo (x, y, z)).1 - e.2.pos.1) ((flo (x, y, z)).2.1 - e.2.pos.2.1)
              ((flo (x, y, z)).2.2 - e.2.pos.2.2)) := by
  have hy : (flo (x, y, z)).2.1 = ⌊y⌋ := rfl
  constructor
  · show m.getP (flo (x, y, z)) = none ↔ _
    unfold Map.getP
    rw [if_neg (by omega), if_neg (by omega)]
    cases hf : m.findChunk (flo (x, y, z)) with
    | none =>
      rw [findChunk_eq_none] at hf
      exact ⟨fun _ => hf, fun _ => rfl⟩
    | some ie =>
      constructor
      · intro h; exact absurd h (by simp)
      · intro h
        obtain ⟨hm, hc⟩ := findChunk_mem m _ ie hf
        exact absurd (h ie.2 hm) (by simp [hc])
  · intro v
    show m.getP (flo (x, y, z)) = some v → _
    unfold Map.getP
    rw [if_neg (by omega), if_neg (by omega)]
    cases hf : m.findChunk (flo (x, y, z)) with
    | none => intro h; exact absurd h (by simp)
    | some ie =>
      intro h
      injection h with h1
      obtain ⟨hm, hc⟩ := findChunk_mem m _ ie hf
      exact ⟨ie.2, hm, hc, h1.symm⟩

/-- Witness for C6: on the one-chunk world of the spec's testable property,
the out-of-extents key fails and the in-extents key reads the chunk's cell. -/
theorem claim_C6_witness :
    mapW.getItem (20, 60, 20) = none ∧
    (∃ e ∈ mapW.chunks, containsB e.1 e.2 (flo (5, 60, 5)) = true ∧
      (1 : Block) = e.2.data ((flo (5, 60, 5)).1 - e.2.pos.1)
        ((flo (5, 60, 5)).2.1 - e.2.pos.2.1) ((flo (5, 60, 5)).2.2 - e.2.pos.2.2)) :=
  ⟨(claim_C6 mapW 20 60 20 (by decide) (by decide)).1.mpr (by decide),
   (claim_C6 mapW 5 60 5 (by decide) (by decide)).2 1 (by decide)⟩

/-- C10.  Keys with equal componentwise floors are interchangeable for both
`get` and `set`: each operation floors its key before any resolution, so it
resolves, respectively mutates, exactly the cell addressed by the floored
key. -/
theorem claim_C10 (m : Map) (k k2 : QV) (v : Block) (h : flo k = flo k2) :
    m.getItem k = m.getItem k2 ∧ m.setItem k v = m.setItem k2 v := by
  constructor
  · unfold Map.getItem
    rw [h]
  · unfold Map.setItem
    rw [h]

/-- Witness for C10: a fractional key and a differently-fractional key with
the same floors agree on `get` and `set`. -/
theorem claim_C10_witness :
    mapW.getItem (mkRat 1 2, 60, mkRat 1 2) = mapW.getItem (0, mkRat 241 4, mkRat 3 4) ∧
    mapW.setItem (mkRat 1 2, 60, mkRat 1 2) 5 = mapW.setItem (0, mkRat 241 4, mkRat 3 4) 5 :=
  claim_C10 mapW (mkRat 1 2, 60, mkRat 1 2) (0, mkRat 241 4, mkRat 3 4) 5 (by decide)

/-! ## Block search claims -/

/-- C1 (code evaluated at the failing input).  With one loaded chunk holding
the target only at (-2, 1, 0) and a search from source (2, 1, 0) with
`maxDist = 2.3`, the search returns (-2, 1, 0) although its Euclidean distance
from the source is 4 > 2.3: the cutoff at Map.py line 84 tests `npos.mag()`,
the distance from the world origin, not from the source. -/
theorem claim_C1_eval :
    searchForBlock mapC1 (2, 1, 0) 57 (fun _ => false) (some (mkRat 23 10)) 200 =
      some (.found (-2, 1, 0)) ∧
    magGtB (psub (-2, 1, 0) (flo (2, 1, 0))) (mkRat 23 10) = true := by
  decide

theorem expandSearch_inl (m : Map) (tgt : Block) (maxD : Option ℚ) (pos : Pos) :
    ∀ (adjs : List Pos) (vis q : List Pos) (p : Pos),
      expandSearch m tgt maxD pos adjs vis q = .inl p →
      m.getP p = some tgt ∧ p ∉ vis := by
  intro adjs
  induction adjs with
  | nil =>
    intro vis q p h
    exact absurd h (by simp [expandSearch])
  | cons adj rest ih =>
    intro vis q p h
    simp only [expandSearch] at h
    split at h
    next => exact ih _ _ _ h
    next =>
      split at h
      next => exact ih _ _ _ h
      next hnv =>
        split at h
        next hg => exact ih _ _ _ h
        next b hg =>
          split at h
          next hbt =>
            injection h with h1
            subst h1
            rw [hg, hbt]
            exact ⟨rfl, hnv⟩
          next hbt =>
            obtain ⟨hgp, hp⟩ := ih _ _ _ h
            exact ⟨hgp, fun hv => hp (List.mem_append.mpr (Or.inl hv))⟩

theorem expandSearch_inr_sub (m : Map) (tgt : Block) (maxD : Option ℚ) (pos : Pos) :
    ∀ (adjs : List Pos) (vis q v2 q2 : List Pos),
      expandSearch m tgt maxD pos adjs vis q = .inr (v2, q2) →
      ∀ a ∈ vis, a ∈ v2 := by
  intro adjs
  induction adjs with
  | nil =>
    intro vis q v2 q2 h a ha
    simp only [expandSearch] at h
    injection h with h1
    rw [Prod.mk.injEq] at h1
    exact h1.1 ▸ ha
  | cons adj rest ih =>
    intro vis q v2 q2 h a ha
    simp only [expandSearch] at h
    split at h
    next => exact ih _ _ _ _ h a ha
    next =>
      split at h
      next => exact ih _ _ _ _ h a ha
      next =>
        split at h
        next => exact ih _ _ _ _ h a ha
        next b hg =>
          split at h
          next => exact absurd h (by simp)
          next => exact ih _ _ _ _ h a (List.mem_append.mpr (Or.inl ha))

theorem searchLoop_found (m : Map) (tgt : Block) (tO : Nat → Bool) (maxD : Option ℚ) :
    ∀ (fuel k : Nat) (vis q : List Pos) (s p : Pos), s ∈ vis →
      searchLoop m tgt tO maxD fuel k vis q = some (.found p) →
      m.getP p = some tgt ∧ p ≠ s := by
  intro fuel
  induction fuel with
  | zero =>
    intro k vis q s p hs h
    exact absurd h (by simp [searchLoop])
  | succ n ih =>
    intro k vis q s p hs h
    cases q with
    | nil => exact absurd h (by simp [searchLoop])
    | cons pos rest =>
      simp only [searchLoop] at h
      split at h
      next => exact absurd h (by simp)
      next =>
        split at h
        next p2 hE =>
          injection h with h1
          injection h1 with h2
          subst h2
          obtain ⟨hg, hnv⟩ := expandSearch_inl m tgt maxD pos adjList vis rest p2 hE
          exact ⟨hg, fun hps => hnv (hps ▸ hs)⟩
        next vq hE =>
          exact ih (k + 1) vq.1 vq.2 s p
            (expandSearch_inr_sub m tgt maxD pos adjList vis rest vq.1 vq.2 hE s hs) h

theorem searchLoop_timeout (m : Map) (tgt : Block) (tO : Nat → Bool) (maxD : Option ℚ) :
    ∀ (fuel k : Nat) (vis q : List Pos),
      searchLoop m tgt tO maxD fuel k vis q = some .timeoutErr → ∃ j, tO j = true := by
  intro fuel
  induction fuel with
  | zero =>
    intro k vis q h
    exact absurd h (by simp [searchLoop])
  | succ n ih =>
    intro k vis q h
    cases q with
    | nil => exact absurd h (by simp [searchLoop])
    | cons pos rest =>
      simp only [searchLoop] at h
      split at h
      next htO => exact ⟨k, htO⟩
      next =>
        split at h
        next => exact absurd h (by simp)
        next vq hE => exact ih (k + 1) vq.1 vq.2 h

theorem searchLoop_oracle (m : Map) (tgt : Block) (tO : Nat → Bool) (maxD : Option ℚ) :
    ∀ (fuel k : Nat) (vis q : List Pos) (r : SearchOut),
      searchLoop m tgt tO maxD fuel k vis q = some r → r ≠ .timeoutErr →
      searchLoop m tgt (fun _ => false) maxD fuel k vis q = some r := by
  intro fuel
  induction fuel with
  | zero =>
    intro k vis q r h hr
    exact absurd h (by simp [searchLoop])
  | succ n ih =>
    intro k vis q r h hr
    cases q with
    | nil => exact h
    | cons pos rest =>
      simp only [searchLoop] at h ⊢
      split at h
      next =>
        injection h with h1
        exact absurd h1.symm hr
      next =>
        rw [if_neg (by simp)]
        split at h
        next p2 hE =>
          exact h
        next vq hE =>
          exact ih (k + 1) vq.1 vq.2 r h hr

/-- C8.  The two negative outcomes of `searchForBlock` are distinct: the
`TimeoutError` is raised only when the elapsed-time test fired at some pop,
and any non-timeout outcome (the "not found" return in particular) is
reproduced unchanged by a run whose clock never fires — exhausting the
frontier returns "not found", never a timeout, and a timeout never returns a
position. -/
theorem claim_C8 (m : Map) (source : QV) (target : Block) (tO : Nat → Bool)
    (maxD : Option ℚ) (fuel : Nat) :
    (searchForBlock m source target tO maxD fuel = some .timeoutErr → ∃ j, tO j = true) ∧
    (∀ r, searchForBlock m source target tO maxD fuel = some r → r ≠ .timeoutErr →
      searchForBlock m source target (fun _ => false) maxD fuel = some r) :=
  ⟨fun h => searchLoop_timeout m target tO maxD fuel 0 [flo source] [flo source] h,
   fun r h hr => searchLoop_oracle m target tO maxD fuel 0 [flo source] [flo source] r h hr⟩

/-- Witness for C8: the frontier-exhausting run of the C2 world with a clock
oracle that never fires within the run is reproduced by the silent clock. -/
theorem claim_C8_witness :
    searchForBlock mapC2 (2, 1, 1) 57 (fun _ => false) (some (mkRat 5 2)) 300 =
      some .notFound :=
  (claim_C8 mapC2 (2, 1, 1) 57 (fun j => decide (100 < j)) (some (mkRat 5 2)) 300).2
    .notFound (by decide) (by decide)

/-- Counterexample to C2 as stated: a world whose block at the floored source
equals the target, yet the search returns "not found" (the source's own block
is never examined by the loop). -/
theorem claim_C2_counterexample :
    mapC2.getItem (2, 1, 1) = some 57 ∧
    searchForBlock mapC2 (2, 1, 1) 57 (fun _ => false) (some (mkRat 5 2)) 300 =
      some .notFound := by
  decide

/-- C2 as amended: the search examines only positions reached as neighbors,
so any found position carries the target block and is never the source
itself (the source is seeded into the visited set and skipped). -/
theorem claim_C2_amended (m : Map) (source : QV) (target : Block) (tO : Nat → Bool)
    (maxD : Option ℚ) (fuel : Nat) (p : Pos)
    (h : searchForBlock m source target tO maxD fuel = some (.found p)) :
    m.getP p = some target ∧ p ≠ flo source :=
  searchLoop_found m target tO maxD fuel 0 [flo source] [flo source] (flo source) p
    (List.mem_singleton.mpr rfl) h

/-- Witness for the amended C2 on the C1 world's successful search. -/
theorem claim_C2_witness :
    mapC1.getP (-2, 1, 0) = some 57 ∧ ((-2, 1, 0) : Pos) ≠ flo (2, 1, 0) :=
  claim_C2_amended mapC1 (2, 1, 0) 57 (fun _ => false) (some (mkRat 23 10)) 200
    (-2, 1, 0) (by decide)

/-! ## Path planner claims -/

/-- C3 (code evaluated at the failing input).  In the corridor world the
terminal backtrack chain is (2,1,0) <- (2,1,1) <- (2,1,2) <- (1,1,2) <-
(0,1,2) <- (0,1,1) <- (0,1,0) = start, but the reconstruction loop
`while cur != startNode` compares heuristic distances through
`AStarNode.__cmp__`, and (2,1,2) is exactly as far from the goal (distance 2)
as the start, so the loop stops there: the returned path starts at the center
of (2,1,2), not at the start block's center (0.5, 1, 0.5), contradicting the
claim and the source's own `#append the start node too` comment. -/
theorem claim_C3_eval :
    findPath Wb3 Bb3 mapC3 (0, 1, 0) (2, 1, 0) false none false none none
        (fun _ => false) 50 =
      some (.ret [(mkRat 5 2, 1, mkRat 5 2), (mkRat 5 2, 1, mkRat 3 2),
                  (mkRat 5 2, 1, mkRat 1 2)] none) ∧
    center (flo ((0 : ℚ), 1, 0)) ≠ (mkRat 5 2, (1 : ℚ), mkRat 5 2) := by
  decide

/-- Counterexample to C4 as stated: in destructive mode with the end block
loaded, breakable (3) but not walkable, the call does not fail hard — it
returns a path — because the end precondition tests membership in
`walkableBlocks` (walkable plus breakable when destructive), not in the plain
walkable set. -/
theorem claim_C4_counterexample :
    mapC4.getItem (1, 1, 0) = some 3 ∧ Wb4 3 = false ∧ Bb4 3 = true ∧
    findPath Wb4 Bb4 mapC4 (0, 1, 0) (1, 1, 0) false none true none none
        (fun _ => false) 20 =
      some (.ret [(mkRat 1 2, 1, mkRat 1 2), (mkRat 3 2, 1, mkRat 1 2)] none) := by
  decide

theorem fpLoop_out (ctx : FPCtx) (startN : ANode) (tO : Nat → Bool) :
    ∀ (fuel k : Nat) (pq : List ANode) (vis : List Pos) (bt : List (Pos × ANode))
      (r : FPOut),
      fpLoop ctx startN tO fuel k pq vis bt = some r →
      r ≠ .errAssert ∧ r ≠ .errNotLoaded := by
  intro fuel
  induction fuel with
  | zero =>
    intro k pq vis bt r h
    exact absurd h (by simp [fpLoop])
  | succ n ih =>
    intro k pq vis bt r h
    simp only [fpLoop] at h
    split at h
    next =>
      injection h with h1
      subst h1
      cases ctx.acceptIncomplete <;> simp
    next =>
      split at h
      next =>
        injection h with h1
        subst h1
        simp
      next =>
        split at h
        next =>
          split at h
          next path hrec =>
            injection h with h1
            subst h1
            simp
          next hrec => exact absurd h (by simp)
        next => exact ih _ _ _ _ _ h

theorem findPathMain_out (Wb Bb : Block → Bool) (m : Map) (start endq : QV)
    (aI : Bool) (th : Option ℚ) (destr : Bool) (bbp : Option ℚ) (cli : Option Client)
    (tO : Nat → Bool) (fuel : Nat) (r : FPOut) :
    findPathMain Wb Bb m start endq aI th destr bbp cli tO fuel = some r →
    r ≠ .errAssert ∧ r ≠ .errNotLoaded := by
  intro h
  exact fpLoop_out _ _ _ _ _ _ _ _ _ h

/-- C4 as amended.  `findPath` raises the hard precondition failure
(`AssertionError`) iff the end block is loaded and outside the traversal set
(walkable, plus breakable when destructive), or the end checks pass and the
start block is loaded and not plainly walkable; it raises `ChunkNotLoaded`
iff `acceptIncomplete` is unset and the end block (or, with a traversable end
block, the block above it) is unloaded, or the end checks pass and the start
block is unloaded.  The end-block assert precedes the above-end lookup, and
the inner search loop never produces either error. -/
theorem claim_C4_amended (Wb Bb : Block → Bool) (m : Map) (start endq : QV)
    (aI : Bool) (th : Option ℚ) (destr : Bool) (bbp : Option ℚ) (cli : Option Client)
    (tO : Nat → Bool) (fuel : Nat) :
    (findPath Wb Bb m start endq aI th destr bbp cli tO fuel = some .errAssert ↔
      (endAssertViolation m endq (wsetOf Wb Bb destr) = true ∨
       (endCheckPasses m endq (wsetOf Wb Bb destr) aI = true ∧
        startAssertViolation Wb m start = true))) ∧
    (findPath Wb Bb m start endq aI th destr bbp cli tO fuel = some .errNotLoaded ↔
      (endNotLoadedFail m endq (wsetOf Wb Bb destr) aI = true ∨
       (endCheckPasses m endq (wsetOf Wb Bb destr) aI = true ∧
        m.getItem start = none))) := by
  have hMain := findPathMain_out Wb Bb m start endq aI th destr bbp cli tO fuel
  unfold findPath findPathStart endAssertViolation endCheckPasses endNotLoadedFail
    startAssertViolation
  cases hE : m.getItem endq with
  | none =>
    dsimp only
    cases aI with
    | false => simp
    | true =>
      cases hS : m.getItem start with
      | none => simp
      | some sb =>
        dsimp only
        cases hW : Wb sb with
        | false => simp
        | true =>
          simp only [Bool.not_true, Bool.false_eq_true, if_false]
          constructor
          · simp
            intro hh
            exact (hMain _ hh).1 rfl
          · simp
            intro hh
            exact (hMain _ hh).2 rfl
  | some b1 =>
    dsimp only
    cases hw1 : wsetOf Wb Bb destr b1 with
    | false => simp
    | true =>
      simp only [Bool.not_true, Bool.false_eq_true, if_false]
      cases hA : m.getItem (qadd3 endq (0, 1, 0)) with
      | none =>
        dsimp only
        cases aI with
        | false => simp
        | true =>
          cases hS : m.getItem start with
          | none => simp
          | some sb =>
            dsimp only
            cases hW : Wb sb with
            | false => simp
            | true =>
              simp only [Bool.not_true, Bool.false_eq_true, if_false]
              constructor
              · simp
                intro hh
                exact (hMain _ hh).1 rfl
              · simp
                intro hh
                exact (hMain _ hh).2 rfl
      | some b2 =>
        dsimp only
        cases hw2 : wsetOf Wb Bb destr b2 with
        | false => simp
        | true =>
          simp only [Bool.not_true, Bool.false_eq_true, if_false]
          cases hS : m.getItem start with
          | none => simp
          | some sb =>
            dsimp only
            cases hW : Wb sb with
            | false => simp
            | true =>
              simp only [Bool.not_true, Bool.false_eq_true, if_false]
              constructor
              · simp
                intro hh
                exact (hMain _ hh).1 rfl
              · simp
                intro hh
                exact (hMain _ hh).2 rfl

/-- C7.  Every candidate that passes the expansion filter (the only gate
through which `fpExpand`, and hence `findPath`, ever pushes a node other than
the start node) satisfies the spec's expansion rules at the inspected world:
traversal-set membership of its own block, of the headroom block, no fence
below, and no fall hazard two above in destructive mode — each check holding
vacuously exactly when the respective chunk is unloaded. -/
theorem claim_C7 (ctx : FPCtx) (vis : List Pos) (pos : Pos)
    (h : expandOk ctx vis (mkANode ctx pos) = true) :
    specExpandConds (wsetOf ctx.Wb ctx.Bb ctx.destructive) ctx.destructive ctx.m pos = true := by
  simp only [expandOk, mkANode, Bool.and_eq_true] at h
  obtain ⟨⟨⟨⟨⟨h1, h2⟩, h3⟩, h4⟩, h5⟩, h6⟩ := h
  unfold specExpandConds
  simp only [Bool.and_eq_true]
  refine ⟨⟨⟨?_, h4⟩, h5⟩, h6⟩
  cases hb : ctx.m.getP pos with
  | none => rfl
  | some b =>
    rw [hb] at h3
    simp only [Option.isSome_some, Bool.true_and, Bool.not_not] at h3
    exact h3

/-- Witness for C7: the filter accepts candidate (0, 1, 1) of the corridor
world during the expansion of the start node, and the spec's conditions hold
there. -/
theorem claim_C7_witness :
    specExpandConds (wsetOf Wb3 Bb3 false) false mapC3 (0, 1, 1) = true :=
  claim_C7
    { Wb := Wb3, Bb := Bb3, m := mapC3, endq := (2, 1, 0), endPos := (2, 1, 0),
      acceptIncomplete := false, threshold := none, destructive := false,
      bbp := none, cli := none }
    [(0, 1, 0)] (0, 1, 1) (by decide)

theorem fpLoop_oracle (ctx : FPCtx) (startN : ANode) (tO : Nat → Bool) :
    ∀ (fuel k : Nat) (pq : List ANode) (vis : List Pos) (bt : List (Pos × ANode))
      (r : FPOut),
      fpLoop ctx startN tO fuel k pq vis bt = some r → r ≠ .errTimeout →
      fpLoop ctx startN (fun _ => false) fuel k pq vis bt = some r := by
  intro fuel
  induction fuel with
  | zero =>
    intro k pq vis bt r h hr
    exact absurd h (by simp [fpLoop])
  | succ n ih =>
    intro k pq vis bt r h hr
    simp only [fpLoop] at h ⊢
    by_cases hq : pq.length = 0
    · rw [if_pos hq] at h ⊢
      exact h
    · rw [if_neg hq] at h ⊢
      by_cases ht : tO k = true
      · rw [if_pos ht] at h
        injection h with h1
        exact absurd h1.symm hr
      · rw [if_neg ht] at h
        rw [if_neg (by simp : ¬((fun _ : Nat => false) k = true))]
        by_cases hft : fpTerm ctx (hpopItem pq) = true
        · rw [if_pos hft] at h ⊢
          exact h
        · rw [if_neg hft] at h ⊢
          exact ih (k + 1) _ _ _ r h hr

theorem findPath_oracle (Wb Bb : Block → Bool) (m : Map) (start endq : QV)
    (aI : Bool) (th : Option ℚ) (destr : Bool) (bbp : Option ℚ) (cli : Option Client)
    (tO : Nat → Bool) (fuel : Nat) (r : FPOut)
    (h : findPath Wb Bb m start endq aI th destr bbp cli tO fuel = some r)
    (hr : r ≠ .errTimeout) :
    findPath Wb Bb m start endq aI th destr bbp cli (fun _ => false) fuel = some r := by
  unfold findPath findPathStart findPathMain at h ⊢
  cases hE : m.getItem endq with
  | some b1 =>
    simp only [hE] at h ⊢
    by_cases hw1 : (!(wsetOf Wb Bb destr b1)) = true
    · rw [if_pos hw1] at h ⊢
      exact h
    · rw [if_neg hw1] at h ⊢
      cases hA : m.getItem (qadd3 endq (0, 1, 0)) with
      | some b2 =>
        simp only [hA] at h ⊢
        by_cases hw2 : (!(wsetOf Wb Bb destr b2)) = true
        · rw [if_pos hw2] at h ⊢
          exact h
        · rw [if_neg hw2] at h ⊢
          cases hS : m.getItem start with
          | none =>
            simp only [hS] at h ⊢
            exact h
          | some sb =>
            simp only [hS] at h ⊢
            by_cases hW : (!(Wb sb)) = true
            · rw [if_pos hW] at h ⊢
              exact h
            · rw [if_neg hW] at h ⊢
              exact fpLoop_oracle _ _ tO fuel 0 _ _ _ r h hr
      | none =>
        simp only [hA] at h ⊢
        by_cases haI : aI = true
        · rw [if_pos haI] at h ⊢
          cases hS : m.getItem start with
          | none =>
            simp only [hS] at h ⊢
            exact h
          | some sb =>
            simp only [hS] at h ⊢
            by_cases hW : (!(Wb sb)) = true
            · rw [if_pos hW] at h ⊢
              exact h
            · rw [if_neg hW] at h ⊢
              exact fpLoop_oracle _ _ tO fuel 0 _ _ _ r h hr
        · rw [if_neg haI] at h ⊢
          exact h
  | none =>
    simp only [hE] at h ⊢
    by_cases haI : aI = true
    · rw [if_pos haI] at h ⊢
      cases hS : m.getItem start with
      | none =>
        simp only [hS] at h ⊢
        exact h
      | some sb =>
        simp only [hS] at h ⊢
        by_cases hW : (!(Wb sb)) = true
        · rw [if_pos hW] at h ⊢
          exact h
        · rw [if_neg hW] at h ⊢
          exact fpLoop_oracle _ _ tO fuel 0 _ _ _ r h hr
    · rw [if_neg haI] at h ⊢
      exact h

/-- C9.  Determinism across timing: on a fixed world with identical
arguments, a completed run's result is independent of the clock oracle — any
second invocation that also completes (does not run out of fuel and does not
time out) returns the very same value, waypoints and availability flag
included. -/
theorem claim_C9 (Wb Bb : Block → Bool) (m : Map) (start endq : QV)
    (aI : Bool) (th : Option ℚ) (destr : Bool) (bbp : Option ℚ) (cli : Option Client)
    (o1 o2 : Nat → Bool) (fuel : Nat) (r : FPOut)
    (h1 : findPath Wb Bb m start endq aI th destr bbp cli o1 fuel = some r)
    (hr1 : r ≠ .errTimeout)
    (h2 : findPath Wb Bb m start endq aI th destr bbp cli o2 fuel ≠ none)
    (hr2 : findPath Wb Bb m start endq aI th destr bbp cli o2 fuel ≠ some .errTimeout) :
    findPath Wb Bb m start endq aI th destr bbp cli o2 fuel = some r := by
  cases hx : findPath Wb Bb m start endq aI th destr bbp cli o2 fuel with
  | none => exact absurd hx h2
  | some r2 =>
    have e1 := findPath_oracle Wb Bb m start endq aI th destr bbp cli o1 fuel r h1 hr1
    have e2 := findPath_oracle Wb Bb m start endq aI th destr bbp cli o2 fuel r2 hx
      (fun hh => hr2 (hh ▸ hx))
    rw [Option.some.inj (e1.symm.trans e2)]

/-- Witness for C9: the corridor-world run with a clock that fires from the
41st pop on (never reached) returns the same path as the silent-clock run. -/
theorem claim_C9_witness :
    findPath Wb3 Bb3 mapC3 (0, 1, 0) (2, 1, 0) false none false none none
        (fun j => decide (40 < j)) 50 =
      some (.ret [(mkRat 5 2, 1, mkRat 5 2), (mkRat 5 2, 1, mkRat 3 2),
                  (mkRat 5 2, 1, mkRat 1 2)] none) :=
  claim_C9 Wb3 Bb3 mapC3 (0, 1, 0) (2, 1, 0) false none false none none
    (fun _ => false) (fun j => decide (40 < j)) 50 _ (by decide) (by decide)
    (by decide) (by decide)

end Esbot
